import Mathlib

/-!
# Verification of the `simple-anvil` region-file decoder

Shallow embedding of the Rust sources (`src/region.rs`, `src/chunk.rs`,
`src/block.rs`) of the `simple-anvil` crate, together with proofs settling
the specification claims about it.

Conventions of the embedding:
* Rust `i8`/`i32`/`i64` values are Lean `Int`s; `u32`/`u64`/`usize` values
  are Lean `Nat`s.  Integer casts (`as u64`, `as usize`, `as i8`, ...) are
  modelled explicitly as wrapping functions.
* Rust `/` and `%` on signed integers truncate toward zero, so they become
  `Int.tdiv` / `Int.tmod`; `rem_euclid` becomes `Int.emod`.
* Rust panics (`panic!`, `todo!`, `unwrap` of `None`, out-of-bounds
  indexing, arithmetic overflow in debug builds) are modelled by the
  `RResult.panicked` constructor; normal returns by `RResult.ok`.
* The NBT tag tree produced by the external `nbt` crate is modelled by the
  inductive `Value`; compounds become association lists looked up by key.
-/

/-- Result of running a piece of Rust code that may panic: `ok` is a normal
return, `panicked` carries the panic message. -/
inductive RResult (α : Type) where
  | ok : α → RResult α
  | panicked : String → RResult α
deriving DecidableEq, Repr

/-- Sequencing of possibly-panicking computations: a panic aborts the rest. -/
def RResult.bind {α β : Type} : RResult α → (α → RResult β) → RResult β
  | .ok a, f => f a
  | .panicked m, _ => .panicked m

/-- A decoded NBT tag (the shape of `nbt::Value` that the crate consumes):
strings, 8-bit and 64-bit integers, arrays of 64-bit integers, lists, and
string-keyed compounds. -/
inductive Value where
  | byte : Int → Value
  | long : Int → Value
  | string : String → Value
  | longArray : List Int → Value
  | list : List Value → Value
  | compound : List (String × Value) → Value

/-- Key lookup in a compound tag (`HashMap::get` / `Blob::get`): the first
binding of the key, if any. -/
def lookupKey (m : List (String × Value)) (k : String) : Option Value :=
  match m with
  | [] => none
  | (k', v) :: rest => if k' = k then some v else lookupKey rest k

/-- Rust `x as u64` on an `i64` value: the two's-complement bit pattern. -/
def u64cast (i : Int) : Nat := (Int.emod i (2 ^ 64)).toNat

/-- Rust `x as usize` (64-bit platform) on a signed value: wraps to the
two's-complement bit pattern, same as `as u64`. -/
def usizeCast (i : Int) : Nat := (Int.emod i (2 ^ 64)).toNat

/-- Rust `x as i8` on an `i32` value: wrap into `[-128, 128)`. -/
def i8cast (n : Int) : Int := Int.emod (n + 128) (2 ^ 8) - 128

/-- Rust `x as i32` on an unsigned 64-bit value: wrap into `[-2^31, 2^31)`. -/
def i32cast (n : Nat) : Int := Int.emod ((n : Int) + 2 ^ 31) (2 ^ 32) - 2 ^ 31

/-- Rust `x as i32` on a `u32` region coordinate. -/
def u32toi32 (n : Nat) : Int := i32cast n

/-- The binary digits (most significant first) of `n`, written with `fuel`
recursion: `fuel = 64` suffices for every value that fits in 64 bits, which
covers every number the crate formats with `{:b}` (`usize` palette sizes and
`i64` bit patterns).  `bdigitsAux fuel 0 = []`. -/
def bdigitsAux : Nat → Nat → List Char
  | 0, _ => []
  | fuel + 1, n =>
    if n = 0 then [] else bdigitsAux fuel (n / 2) ++ [if n % 2 = 1 then '1' else '0']

/-- Binary digits, most significant first, of a number below `2 ^ 64`;
empty for `0`. -/
def bdigits (n : Nat) : List Char := bdigitsAux 64 n

/-- `format!("{:b}", n)` for an unsigned value `n < 2 ^ 64`, as a character
list: no leading zeros, and `0` prints as `"0"`. -/
def binFormat (n : Nat) : List Char := if n = 0 then ['0'] else bdigits n

/-- `Chunk::bit_length` (`src/chunk.rs:411`): `0` for `0`, otherwise the
length of the `{:b}` rendering of the number (which has no leading zeros). -/
def bit_length (num : Nat) : Nat := if num = 0 then 0 else (bdigits num).length

/-- Splitting a character list at every occurrence of `sep`, keeping empty
pieces — the behaviour of Rust's `str::split` with a one-character pattern
(`"".split(sep)` is `[""]`, separators at the ends produce empty pieces). -/
def splitChars (sep : Char) : List Char → List (List Char)
  | [] => [[]]
  | c :: rest =>
    if c = sep then [] :: splitChars sep rest
    else
      match splitChars sep rest with
      | [] => [[c]]
      | h :: t => (c :: h) :: t

/-- `Block` (`src/block.rs`): namespace and id strings, optional world
coordinates, optional property list, and the biome string that
`src/chunk.rs` passes to the constructors.  The Rust field `namespace` is a
Lean keyword, so it is called `nspace` here. -/
structure Block where
  nspace : String
  id : String
  coords : Option (Int × Int × Int)
  properties : Option (List (String × String))
  biome : String
deriving DecidableEq, Repr

/-- `Block::name` (`src/block.rs:58`): `namespace + ":" + id`. -/
def Block.name (b : Block) : String := b.nspace ++ ":" ++ b.id

/-- `Block::from_name` (`src/block.rs:79`, with the `biome` argument the
call sites in `src/chunk.rs` pass): split the name at every `":"`, take
piece 0 as the namespace and piece 1 as the id; indexing a missing piece 1
is a Rust index-out-of-bounds panic. -/
def Block.from_name (name : String) (coords : Option (Int × Int × Int))
    (properties : Option (List (String × String))) (biome : String) : RResult Block :=
  let temp := (splitChars ':' name.data).map (fun cs => String.mk cs)
  match temp.get? 0, temp.get? 1 with
  | some a, some b => .ok ⟨a, b, coords, properties, biome⟩
  | _, _ => .panicked "index out of bounds"

/-- `Block::from_palette` (`src/block.rs:95`): the palette entry must be a
compound with a `"Name"` string field, which is fed to `from_name`. -/
def Block.from_palette (tag : Value) (coords : Option (Int × Int × Int))
    (properties : Option (List (String × String))) (biome : String) : RResult Block :=
  match tag with
  | .compound t =>
    match lookupKey t "Name" with
    | some (.string n) => Block.from_name n coords properties biome
    | some _ => .panicked "Palette tag missing name?"
    | none => .panicked "called Option::unwrap on a None value"
  | _ => .panicked "Tag passed from palette is not compound"

/-- `num_chars.chunks(9)` etc.: split a character list into consecutive
pieces of `k` characters, the last piece possibly shorter.  Written with
fuel (`l.length` suffices) so that it is structurally recursive. -/
def chunksOfAux (k : Nat) : Nat → List Char → List (List Char)
  | 0, _ => []
  | _, [] => []
  | fuel + 1, c :: rest => (c :: rest).take k :: chunksOfAux k fuel ((c :: rest).drop k)

/-- `slice::chunks(k)` on a character list (`k > 0` in every use). -/
def chunksOf (k : Nat) (l : List Char) : List (List Char) := chunksOfAux k l.length l

/-- `usize::from_str_radix(s, 2)` on a string of binary digits: the value
read most-significant-digit first. -/
def parseBin (l : List Char) : Nat := l.foldl (fun acc c => acc * 2 + (if c = '1' then 1 else 0)) 0

/-- The `surface_binary` construction of `Chunk::get_heightmap`
(`src/chunk.rs:108`): each `i64` word is formatted with `{:b}` (the
two's-complement bit pattern) and left-padded with `"0".repeat(63 - len)`;
when the rendering is longer than 63 characters that `usize` subtraction
overflows, a Rust panic. -/
def padBinary : List Int → RResult (List (List Char))
  | [] => .ok []
  | n :: rest =>
    let s := binFormat (u64cast n)
    if 63 < s.length then .panicked "attempt to subtract with overflow"
    else
      RResult.bind (padBinary rest) fun r =>
        .ok ((List.replicate (63 - s.length) '0' ++ s) :: r)

/-- The double loop of `Chunk::get_heightmap` (`src/chunk.rs:112`): for each
padded word, split into 9-character groups, reverse the groups, and keep
every group that is not `"000000000"`. -/
def heightmapAll : List (List Char) → List (List Char)
  | [] => []
  | num :: rest =>
    ((chunksOf 9 num).reverse.filter (fun t => t ≠ List.replicate 9 '0')) ++ heightmapAll rest

/-- `Chunk::get_status` (`src/chunk.rs:48`): the `"Status"` tag, which must
be a string. -/
def get_status (data : List (String × Value)) : RResult String :=
  match lookupKey data "Status" with
  | some (.string s) => .ok s
  | some _ => .panicked "Value should be a string?"
  | none => .panicked "called Option::unwrap on a None value"

/-- `Chunk::get_heightmap` (`src/chunk.rs:88`): `None` unless the status is
`"full"`; otherwise decode the selected long-array (`"OCEAN_FLOOR"` when
`ignore_water`, else `"WORLD_SURFACE"`) by padding each word to 63 binary
characters, chunking into 9-bit groups consumed in reverse order,
discarding `"000000000"` groups, and mapping each parsed value `n` to
`n as i32 - 64 - 1`. -/
def get_heightmap (data : List (String × Value)) (ignore_water : Bool) :
    RResult (Option (List Int)) :=
  RResult.bind (get_status data) fun st =>
  if st = "full" then
    match lookupKey data "Heightmaps" with
    | some (.compound hm) =>
      let map := if ignore_water then "OCEAN_FLOOR" else "WORLD_SURFACE"
      match lookupKey hm map with
      | some (.longArray surface) =>
        RResult.bind (padBinary surface) fun surface_binary =>
          .ok (some ((heightmapAll surface_binary).map
            (fun num => i32cast (parseBin num) - 64 - 1)))
      | some _ => .panicked "no ocean?"
      | none => .panicked "called Option::unwrap on a None value"
    | some _ => .panicked "Heightmaps should be a compound"
    | none => .panicked "called Option::unwrap on a None value"
  else .ok none

/-- The section scan of `Chunk::get_section` (`src/chunk.rs:152`): each list
entry must be a compound whose `"Y"` tag is a byte; the first one equal to
`y` is returned. -/
def sectionScan (y : Int) : List Value → RResult (Option (List (String × Value)))
  | [] => .ok none
  | sec :: rest =>
    match sec with
    | .compound s =>
      match lookupKey s "Y" with
      | some (.byte secY) => if secY = y then .ok (some s) else sectionScan y rest
      | some _ => .panicked "Failed to get y"
      | none => .panicked "called Option::unwrap on a None value"
    | _ => .panicked "should be a compound"

/-- `Chunk::get_section` (`src/chunk.rs:142`): panics when the index is
outside `[-4, 19]`, then scans the `"sections"` list. -/
def get_section (data : List (String × Value)) (y : Int) :
    RResult (Option (List (String × Value))) :=
  if y < -4 ∨ y > 19 then .panicked "Y value out of range"
  else
    match lookupKey data "sections" with
    | some (.list s) => sectionScan y s
    | some _ => .panicked "Value should be a list?"
    | none => .panicked "called Option::unwrap on a None value"

/-- The section scan of `Chunk::get_biome` (`src/chunk.rs:205`): find the
section whose byte `"Y"` equals the target index and return entry 0 of its
`biomes.palette` (a string); fall back to `"minecraft:ocean"` after the
loop. -/
def biomeScan (target : Int) : List Value → RResult String
  | [] => .ok "minecraft:ocean"
  | sec :: rest =>
    match sec with
    | .compound s =>
      match lookupKey s "Y" with
      | some (.byte val) =>
        if val = target then
          match lookupKey s "biomes" with
          | some (.compound biomes) =>
            match lookupKey biomes "palette" with
            | some (.list pallete) =>
              match pallete.get? 0 with
              | some (.string b) => .ok b
              | some _ => .panicked "failed to get string"
              | none => .panicked "index out of bounds"
            | some _ => .panicked "pallete not found"
            | none => .panicked "called Option::unwrap on a None value"
          | some _ => .panicked "biomes not found"
          | none => .panicked "called Option::unwrap on a None value"
        else biomeScan target rest
      | some _ => .panicked "invalid height found"
      | none => .panicked "called Option::unwrap on a None value"
    | _ => .panicked "Should be a compound?"

/-- `Chunk::get_biome` (`src/chunk.rs:199`): scan the `"sections"` list for
the section at altitude index `(y + 64) / 16 - 4` (as `i8`) and return the
first entry of its biome palette. -/
def get_biome (data : List (String × Value)) (y : Int) : RResult String :=
  match lookupKey data "sections" with
  | some (.list s) => biomeScan (i8cast (Int.tdiv (y + 64) 16 - 4)) s
  | some _ => .panicked "Value should be a list?"
  | none => .panicked "called Option::unwrap on a None value"

/-- The bit width of the block-state decoder (`src/chunk.rs:357`):
`cmp::max(self.bit_length(palette.len() - 1), 4)`.  (For an empty palette
the `usize` subtraction would already panic; callers guard that case.) -/
def block_state_bits (palLen : Nat) : Nat := max (bit_length (palLen - 1)) 4

/-- The block-state palette-index computation of `Chunk::get_block`
(`src/chunk.rs:357` and `366`–`375`): linear index `y*16*16 + z*16 + x`,
word `index / (64 / bits)`, reinterpretation of a negative word as its
unsigned bit pattern, logical right shift by `index % (64 / bits) * bits`,
and mask with `2u32.pow(bits) - 1`.  Debug-build arithmetic panics
(`usize` underflow on an empty palette, division by zero when
`64 / bits == 0`, `u32` overflow of `2u32.pow(bits)` when `bits ≥ 32`) are
modelled as panics. -/
def block_state_pal_id (palLen : Nat) (states : List Int) (x y z : Int) : RResult Nat :=
  if palLen = 0 then .panicked "attempt to subtract with overflow"
  else
    let bits := block_state_bits palLen
    let index := y * 16 * 16 + z * 16 + x
    if 64 / bits = 0 then .panicked "attempt to divide by zero"
    else
      let state := usizeCast index / (64 / bits)
      match states.get? state with
      | none => .panicked "index out of bounds"
      | some data =>
        let shifted_data :=
          (if data < 0 then u64cast data else usizeCast data) >>>
            (usizeCast index % (64 / bits) * bits)
        if 32 ≤ bits then .panicked "attempt to multiply with overflow"
        else .ok (shifted_data &&& (2 ^ bits - 1))

/-- The biome palette-index computation of `Chunk::get_block`
(`src/chunk.rs:275`–`282`): always reads `dat[0]`, computes the sub-cell
index `(y % 16 / 4) * 16 + (z / 4) * 4 + (x / 4)`, arithmetically shifts
the signed word right by `(bits * index) % 64`, hits the `todo!()` (a
panic) when the field would span into the next word, and otherwise masks
with `2u32.pow(bits) - 1`. -/
def biome_pal_id (palLen : Nat) (dat : List Int) (x y z : Int) : RResult Int :=
  match dat.get? 0 with
  | none => .panicked "index out of bounds"
  | some dat0 =>
    let index := Int.tdiv (Int.tmod y 16) 4 * 16 + Int.tdiv z 4 * 4 + Int.tdiv x 4
    if palLen = 0 then .panicked "attempt to subtract with overflow"
    else
      let bits := bit_length (palLen - 1)
      let s := Int.tmod ((bits : Int) * index) 64
      if s < 0 then .panicked "attempt to shift right with overflow"
      else
        let shifted_dat := Int.fdiv dat0 (2 ^ s.toNat)
        if 64 - s < (bits : Int) then
          .panicked "not yet implemented: I skipped this for now as it seemed a bit more tedious"
        else if 32 ≤ bits then .panicked "attempt to multiply with overflow"
        else .ok (Int.land shifted_dat (2 ^ bits - 1))

/-- `Display` of an `nbt::Value` (`pal[0].to_string()` at
`src/chunk.rs:336`).  Modelled from the spec: the tag library is an
external collaborator (spec §6); for a string tag its rendering is the
string itself, which is the only case the crate's data contains here. -/
def valueToString (v : Value) : String :=
  match v with
  | .string s => s
  | _ => ""

/-- The `Properties` extraction of `Chunk::get_block`
(`src/chunk.rs:378`–`397`): every property value must be a string. -/
def propsList : List (String × Value) → RResult (List (String × String))
  | [] => .ok []
  | (k, v) :: rest =>
    match v with
    | .string s => RResult.bind (propsList rest) fun r => .ok ((k, s) :: r)
    | _ => .panicked "Should be a string?"

/-- Property lookup on a palette entry: the entry must be a compound; a
missing `Properties` key yields `none`, a non-compound `Properties`
panics. -/
def propsOf (block : Value) : RResult (Option (List (String × String))) :=
  match block with
  | .compound c =>
    match lookupKey c "Properties" with
    | some (.compound p) => RResult.bind (propsList p) fun r => .ok (some r)
    | some _ => .panicked "Properties should be a compound"
    | none => .ok none
  | _ => .panicked "block should be a compound"

/-- `Chunk` (`src/chunk.rs:9`): the decoded tag tree plus the region-relative
`u32` chunk coordinates. -/
structure Chunk where
  data : List (String × Value)
  x : Nat
  z : Nat

/-- `Chunk::get_block` (`src/chunk.rs:250`): find the section at altitude
index `(y + 64) / 16 - 4` (air when absent), reduce `y` with `rem_euclid`,
resolve the biome (packed decode when a `data` array is present, otherwise
palette entry 0's rendering), then decode the block-state palette index and
materialize the block; missing `block_states` or missing `data` give air.
Note the air blocks after the `y` reassignment carry the reduced `y`, and
the world coordinates use `self.x * 32` as the source does. -/
def get_block (c : Chunk) (x y z : Int) : RResult Block :=
  match get_section c.data (i8cast (Int.tdiv (y + 64) 16 - 4)) with
  | .panicked m => .panicked m
  | .ok none =>
    Block.from_name "minecraft:air"
      (some (u32toi32 c.x * 32 + x, y, u32toi32 c.z * 32 + z)) none ""
  | .ok (some sec) =>
    let y := Int.emod y 16
    match lookupKey sec "biomes" with
    | some (.compound biomes) =>
      (match lookupKey biomes "palette" with
       | some (.list pal) =>
         let biomeR : RResult String :=
           match lookupKey biomes "data" with
           | some (.longArray la) =>
             RResult.bind (biome_pal_id pal.length la x y z) fun pal_id =>
               match pal.get? (usizeCast pal_id) with
               | some (.string s) => .ok s
               | some _ => .panicked "hah"
               | none => .panicked "index out of bounds"
           | some _ => .panicked "naw?"
           | none =>
             match pal.get? 0 with
             | some v => .ok (valueToString v)
             | none => .panicked "index out of bounds"
         RResult.bind biomeR fun biome =>
           match lookupKey sec "block_states" with
           | some (.compound bs) =>
             (match lookupKey bs "palette" with
              | some (.list palette) =>
                (match lookupKey bs "data" with
                 | some (.longArray states) =>
                   RResult.bind (block_state_pal_id palette.length states x y z)
                     fun palette_id =>
                       match palette.get? palette_id with
                       | some block =>
                         RResult.bind (propsOf block) fun props =>
                           Block.from_palette block
                             (some (u32toi32 c.x * 32 + x, y, u32toi32 c.z * 32 + z))
                             props biome
                       | none => .panicked "index out of bounds"
                 | some _ => .panicked "something here"
                 | none =>
                   Block.from_name "minecraft:air"
                     (some (u32toi32 c.x * 32 + x, y, u32toi32 c.z * 32 + z)) none biome)
              | some _ => .panicked "Palette should be a list"
              | none => .panicked "called Option::unwrap on a None value")
           | _ =>
             Block.from_name "minecraft:air"
               (some (u32toi32 c.x * 32 + x, y, u32toi32 c.z * 32 + z)) none biome
       | some _ => .panicked "naw2"
       | none => .panicked "called Option::unwrap on a None value")
    | _ => .panicked "no biome?"

/-- `Region::header_offset` (`src/region.rs:32`):
`4 * (chunk_x % 32 + chunk_z % 32 * 32)`. -/
def header_offset (chunk_x chunk_z : Nat) : Nat := 4 * (chunk_x % 32 + chunk_z % 32 * 32)

/-- `from_be_3_bytes` (`src/region.rs:139`): three big-endian bytes
zero-extended to 32 bits. -/
def from_be_3_bytes (b0 b1 b2 : Nat) : Nat := (b0 * 256 + b1) * 256 + b2

/-- `Region::chunk_location` (`src/region.rs:42`): read the 4-byte sector
table entry at the header offset; slicing past the buffer's end is a Rust
panic. -/
def chunk_location (data : List Nat) (chunk_x chunk_z : Nat) : RResult (Nat × Nat) :=
  let b_off := header_offset chunk_x chunk_z
  match data.get? b_off, data.get? (b_off + 1), data.get? (b_off + 2), data.get? (b_off + 3) with
  | some b0, some b1, some b2, some b3 => .ok (from_be_3_bytes b0 b1 b2, b3)
  | _, _, _, _ => .panicked "range end index out of range for slice"

/-- `Region::chunk_data` (`src/region.rs:61`): `(0, 0)` sector entries mean
an absent chunk (`None`); compression type `1` is unsupported (`None`);
otherwise the `length - 1` compressed payload bytes are sliced out and
handed to the external zlib/NBT collaborators (spec §6), which this
embedding stops short of: it returns the payload slice. -/
def chunk_data (data : List Nat) (chunk_x chunk_z : Nat) : RResult (Option (List Nat)) :=
  RResult.bind (chunk_location data chunk_x chunk_z) fun off =>
  if off = (0, 0) then .ok none
  else
    let o := off.1 * 4096
    match data.get? o, data.get? (o + 1), data.get? (o + 2), data.get? (o + 3) with
    | some l0, some l1, some l2, some l3 =>
      let length := ((l0 * 256 + l1) * 256 + l2) * 256 + l3
      match data.get? (o + 4) with
      | some compression =>
        if compression = 1 then .ok none
        else
          if o + 5 + length - 1 < o + 5 then .panicked "slice index starts at but ends before it"
          else if data.length < o + 5 + length - 1 then
            .panicked "range end index out of range for slice"
          else .ok (some ((data.drop (o + 5)).take (length - 1)))
      | none => .panicked "index out of bounds"
    | _, _, _, _ => .panicked "range end index out of range for slice"

/-- The spec's `bit_length` / `ceil_log2` (spec §4.4): `0` for `0`,
otherwise `floor(log2 n) + 1`. -/
def spec_bit_length (n : Nat) : Nat := if n = 0 then 0 else Nat.log2 n + 1

/-- Follows the words of claim C1: the block-state decode locates the word
at `i / (64/width)`, reinterprets it as its unsigned 64-bit pattern,
right-shifts by `(i mod (64/width)) * width`, and masks the low `width`
bits, with `i = y*256 + z*16 + x`. -/
def spec_block_state_entry (palLen : Nat) (states : List Int) (x y z : Int) : Nat :=
  let width := block_state_bits palLen
  let i := (y * 256 + z * 16 + x).toNat
  u64cast (states.getD (i / (64 / width)) 0) >>> (i % (64 / width) * width) &&& (2 ^ width - 1)

/-- Follows the words of claim C3 and spec §4.4 (biome indexing): width
`ceil_log2(palette_len - 1)`, bit position `width * sub_index`; when
`64 - bit_start < width` the low part comes from the current word's top
bits and the high part from the next word's low bits, combined before
masking.  `none` models a word index past the array. -/
def spec_biome_decode (palLen : Nat) (dat : List Int) (subIndex : Nat) : Option Nat :=
  let width := spec_bit_length (palLen - 1)
  let bitPos := width * subIndex
  let word := bitPos / 64
  let bitStart := bitPos % 64
  match dat.get? word with
  | none => none
  | some d =>
    if 64 - bitStart < width then
      match dat.get? (word + 1) with
      | none => none
      | some d2 =>
        some ((u64cast d >>> bitStart ||| u64cast d2 <<< (64 - bitStart)) % 2 ^ width)
    else some (u64cast d >>> bitStart % 2 ^ width)

/-- The seven 9-bit fields of one heightmap word, least significant first —
the field order recovered by consuming the reversed 9-character groups
(claim C4). -/
def spec_word_fields (w : Int) : List Nat :=
  (List.range 7).map (fun k => u64cast w / 2 ^ (9 * k) % 512)

/-- All 9-bit heightmap fields of a word list in stream order, with every
all-zero field removed — the filtering `get_heightmap` actually performs. -/
def spec_all_fields : List Int → List Nat
  | [] => []
  | w :: rest => (spec_word_fields w).filter (fun v => v ≠ 0) ++ spec_all_fields rest

/-- The heights produced by the amended claim C4: every all-zero 9-bit
group is discarded wherever it occurs, and each remaining value `v` maps to
`v - 64 - 1`. -/
def spec_heights (words : List Int) : List Int :=
  (spec_all_fields words).map (fun v : Nat => (v : Int) - 64 - 1)

/-- All 9-bit heightmap fields of a word list in stream order, with only
the all-zero fields at the stream's tail removed — the filtering claim C4
as stated prescribes. -/
def spec_fields_tail_trimmed (words : List Int) : List Nat :=
  let all : List Nat :=
    (words.map spec_word_fields).foldr (fun fs acc => fs ++ acc) []
  (all.reverse.dropWhile (fun v => v = 0)).reverse

/-- The heights prescribed by claim C4 as stated: only tail padding is
discarded. -/
def spec_heights_tail (words : List Int) : List Int :=
  (spec_fields_tail_trimmed words).map (fun v : Nat => (v : Int) - 64 - 1)

/-- Fixed-width binary rendering, most significant bit first: the `width`
low bits of `n`, used to reason about the padded heightmap strings. -/
def binFix : Nat → Nat → List Char
  | 0, _ => []
  | k + 1, n => binFix k (n / 2) ++ [if n % 2 = 1 then '1' else '0']

theorem bdigitsAux_zero (f : Nat) : bdigitsAux f 0 = [] := by
  cases f <;> simp [bdigitsAux]

theorem bdigitsAux_fuel (f : Nat) : ∀ (g n : Nat), n < 2 ^ f → n < 2 ^ g →
    bdigitsAux f n = bdigitsAux g n := by
  induction f with
  | zero =>
    intro g n hf _
    have : n = 0 := by simpa using Nat.lt_one_iff.mp hf
    subst this
    simp [bdigitsAux_zero]
  | succ f ih =>
    intro g n hf hg
    cases g with
    | zero =>
      have : n = 0 := by simpa using Nat.lt_one_iff.mp hg
      subst this
      simp [bdigitsAux_zero]
    | succ g =>
      by_cases h : n = 0
      · subst h; simp [bdigitsAux]
      · have hf2 : n / 2 < 2 ^ f := by
          rw [Nat.div_lt_iff_lt_mul (by norm_num)]
          calc n < 2 ^ (f + 1) := hf
          _ = 2 ^ f * 2 := by rw [Nat.pow_succ]
        have hg2 : n / 2 < 2 ^ g := by
          rw [Nat.div_lt_iff_lt_mul (by norm_num)]
          calc n < 2 ^ (g + 1) := hg
          _ = 2 ^ g * 2 := by rw [Nat.pow_succ]
        simp only [bdigitsAux, if_neg h]
        rw [ih g (n / 2) hf2 hg2]

theorem bdigits_zero : bdigits 0 = [] := bdigitsAux_zero 64

theorem bdigitsAux_succ (f n : Nat) : bdigitsAux (f + 1) n =
    if n = 0 then [] else bdigitsAux f (n / 2) ++ [if n % 2 = 1 then '1' else '0'] := rfl

theorem bdigits_step (n : Nat) (h0 : 0 < n) (h64 : n < 2 ^ 64) :
    bdigits n = bdigits (n / 2) ++ [if n % 2 = 1 then '1' else '0'] := by
  have hne : n ≠ 0 := Nat.pos_iff_ne_zero.mp h0
  have h63 : n / 2 < 2 ^ 63 := by
    rw [Nat.div_lt_iff_lt_mul (by norm_num)]
    calc n < 2 ^ 64 := h64
    _ = 2 ^ 63 * 2 := by norm_num
  have h64' : n / 2 < 2 ^ 64 := lt_of_lt_of_le h63 (by norm_num)
  have e : bdigitsAux 64 n =
      if n = 0 then [] else bdigitsAux 63 (n / 2) ++ [if n % 2 = 1 then '1' else '0'] :=
    bdigitsAux_succ 63 n
  unfold bdigits
  rw [e, if_neg hne, bdigitsAux_fuel 63 64 (n / 2) h63 h64']

theorem bdigits_len (n : Nat) (h0 : 0 < n) (h64 : n < 2 ^ 64) :
    (bdigits n).length = Nat.log2 n + 1 := by
  induction n using Nat.strong_induction_on with
  | _ n ih =>
    rcases Nat.lt_or_ge n 2 with h2 | h2
    · have h1 : n = 1 := by omega
      subst h1
      simp [bdigits_step 1 (by norm_num) (by norm_num), bdigits_zero, Nat.log2]
    · have hdivpos : 0 < n / 2 := Nat.div_pos h2 (by norm_num)
      have hdivlt : n / 2 < n := Nat.div_lt_self h0 (by norm_num)
      have hdiv64 : n / 2 < 2 ^ 64 := lt_trans hdivlt h64
      rw [bdigits_step n h0 h64, List.length_append, List.length_singleton,
        ih (n / 2) hdivlt hdivpos hdiv64]
      have : Nat.log2 n = Nat.log2 (n / 2) + 1 := by
        rw [Nat.log2]
        simp [h2]
      omega

theorem bit_length_eq_spec (m : Nat) (h : m < 2 ^ 64) : bit_length m = spec_bit_length m := by
  unfold bit_length spec_bit_length
  by_cases h0 : m = 0
  · simp [h0]
  · simp only [if_neg h0]
    exact bdigits_len m (Nat.pos_of_ne_zero h0) h

theorem binFix_length (k : Nat) : ∀ n, (binFix k n).length = k := by
  induction k with
  | zero => intro n; rfl
  | succ k ih => intro n; simp [binFix, ih]

theorem binFix_zero (k : Nat) : binFix k 0 = List.replicate k '0' := by
  induction k with
  | zero => rfl
  | succ k ih =>
    show binFix k (0 / 2) ++ [if 0 % 2 = 1 then '1' else '0'] = _
    rw [List.replicate_succ']
    norm_num [ih]

theorem binFix_of_bdigits : ∀ (k n : Nat), 0 < n → n < 2 ^ k → n < 2 ^ 64 →
    binFix k n = List.replicate (k - (bdigits n).length) '0' ++ bdigits n := by
  intro k
  induction k with
  | zero =>
    intro n h0 hk _
    exact absurd (Nat.lt_of_lt_of_le h0 (Nat.le_of_lt_succ (Nat.lt_succ_of_lt hk))) (by omega)
  | succ k ih =>
    intro n h0 hk h64
    have hstep : bdigits n = bdigits (n / 2) ++ [if n % 2 = 1 then '1' else '0'] :=
      bdigits_step n h0 h64
    by_cases h1 : n = 1
    · subst h1
      show binFix k (1 / 2) ++ _ = _
      rw [hstep]
      simp [binFix_zero, bdigits_zero]
    · have h2 : 2 ≤ n := by omega
      have hd0 : 0 < n / 2 := Nat.div_pos h2 (by norm_num)
      have hdk : n / 2 < 2 ^ k := by
        rw [Nat.div_lt_iff_lt_mul (by norm_num)]
        calc n < 2 ^ (k + 1) := hk
        _ = 2 ^ k * 2 := by rw [Nat.pow_succ]
      have hd64 : n / 2 < 2 ^ 64 :=
        lt_trans (Nat.div_lt_self h0 (by norm_num)) h64
      have hlen : (bdigits (n / 2)).length ≤ k := by
        rw [bdigits_len (n / 2) hd0 hd64]
        have : Nat.log2 (n / 2) < k := (Nat.log2_lt (by omega)).mpr hdk
        omega
      show binFix k (n / 2) ++ [if n % 2 = 1 then '1' else '0'] = _
      rw [ih (n / 2) hd0 hdk hd64, hstep, List.length_append, List.length_singleton]
      have hsub : k + 1 - ((bdigits (n / 2)).length + 1) = k - (bdigits (n / 2)).length := by
        omega
      rw [hsub, List.append_assoc]

theorem binFormat_pad (k n : Nat) (hk : 0 < k) (hn : n < 2 ^ k) (h64 : n < 2 ^ 64) :
    List.replicate (k - (binFormat n).length) '0' ++ binFormat n = binFix k n := by
  by_cases h0 : n = 0
  · subst h0
    show List.replicate (k - 1) '0' ++ ['0'] = _
    rw [binFix_zero, ← List.replicate_succ']
    congr 1
    omega
  · simp only [binFormat, if_neg h0]
    rw [binFix_of_bdigits k n (Nat.pos_of_ne_zero h0) hn h64]

theorem binFix_add (a b : Nat) : ∀ n, binFix (a + b) n = binFix a (n / 2 ^ b) ++ binFix b n := by
  induction b with
  | zero => intro n; simp [binFix]
  | succ b ih =>
    intro n
    show binFix (a + b + 1) n = _
    have e1 : binFix (a + b + 1) n =
        binFix (a + b) (n / 2) ++ [if n % 2 = 1 then '1' else '0'] := rfl
    have e2 : binFix (b + 1) n = binFix b (n / 2) ++ [if n % 2 = 1 then '1' else '0'] := rfl
    rw [e1, e2, ih (n / 2), Nat.div_div_eq_div_mul, List.append_assoc]
    congr 3
    rw [Nat.pow_succ]
    ring_nf

theorem parseBin_binFix (k : Nat) : ∀ n, parseBin (binFix k n) = n % 2 ^ k := by
  induction k with
  | zero => intro n; simp [parseBin, binFix, Nat.mod_one]
  | succ k ih =>
    intro n
    have e1 : binFix (k + 1) n = binFix k (n / 2) ++ [if n % 2 = 1 then '1' else '0'] := rfl
    have hbit : (if (if n % 2 = 1 then '1' else '0') = '1' then 1 else 0) = n % 2 := by
      rcases Nat.mod_two_eq_zero_or_one n with h | h <;> simp [h]
    have e2 : parseBin (binFix (k + 1) n) =
        parseBin (binFix k (n / 2)) * 2 + (if (if n % 2 = 1 then '1' else '0') = '1' then 1 else 0) := by
      rw [e1]
      unfold parseBin
      rw [List.foldl_append]
      rfl
    rw [e2, hbit, ih (n / 2)]
    have hmm : n % (2 * 2 ^ k) = n % 2 + 2 * (n / 2 % 2 ^ k) := Nat.mod_mul
    have hp : (2 : Nat) ^ (k + 1) = 2 * 2 ^ k := by rw [Nat.pow_succ]; ring
    rw [hp, hmm]
    omega

theorem binFix_eq_replicate (k : Nat) : ∀ n, binFix k n = List.replicate k '0' ↔ n % 2 ^ k = 0 := by
  induction k with
  | zero => intro n; simp [binFix, Nat.mod_one]
  | succ k ih =>
    intro n
    have e1 : binFix (k + 1) n = binFix k (n / 2) ++ [if n % 2 = 1 then '1' else '0'] := rfl
    have hmm : n % (2 * 2 ^ k) = n % 2 + 2 * (n / 2 % 2 ^ k) := Nat.mod_mul
    have hp : (2 : Nat) ^ (k + 1) = 2 * 2 ^ k := by rw [Nat.pow_succ]; ring
    rw [e1, List.replicate_succ', hp]
    constructor
    · intro h
      have hinj := List.append_inj' h (by simp)
      have hbit : (if n % 2 = 1 then '1' else '0') = '0' := by
        have := hinj.2
        simpa using this
      have hn2 : n % 2 = 0 := by
        rcases Nat.mod_two_eq_zero_or_one n with h2 | h2
        · exact h2
        · rw [h2] at hbit; simp at hbit
      have hdiv : n / 2 % 2 ^ k = 0 := (ih (n / 2)).mp hinj.1
      omega
    · intro h
      have hn2 : n % 2 = 0 := by omega
      have hdiv : n / 2 % 2 ^ k = 0 := by omega
      rw [(ih (n / 2)).mpr hdiv, hn2]
      norm_num

theorem int_emod_eq_of_lt {a b : Int} (h0 : 0 ≤ a) (h : a < b) : Int.emod a b = a :=
  Int.emod_eq_of_lt h0 h

theorem i32cast_of_lt (n : Nat) (h : n < 2 ^ 31) : i32cast n = n := by
  unfold i32cast
  have h31 : ((2 : Int) ^ 31) = 2147483648 := by norm_num
  have h32 : ((2 : Int) ^ 32) = 4294967296 := by norm_num
  rw [h31, h32]
  have hn : (n : Int) < 2147483648 := by
    have : ((2 : Nat) ^ 31 : Nat) = 2147483648 := by norm_num
    omega
  rw [int_emod_eq_of_lt (by omega) (by omega)]
  omega

theorem usizeCast_of_nonneg (i : Int) (h0 : 0 ≤ i) (h : i < 2 ^ 64) : usizeCast i = i.toNat := by
  unfold usizeCast
  rw [int_emod_eq_of_lt h0 h]

theorem u64cast_of_nonneg (i : Int) (h0 : 0 ≤ i) (h : i < 2 ^ 64) : u64cast i = i.toNat := by
  unfold u64cast
  rw [int_emod_eq_of_lt h0 h]

theorem chunksOfAux_nil (k f : Nat) : chunksOfAux k f [] = [] := by cases f <;> rfl

theorem chunksOfAux_succ (k m : Nat) (c : Char) (rest : List Char) :
    chunksOfAux k (m + 1) (c :: rest) =
      (c :: rest).take k :: chunksOfAux k m ((c :: rest).drop k) := rfl

theorem chunks9Aux_irrel : ∀ (f1 f2 : Nat) (l : List Char), l.length ≤ f1 → l.length ≤ f2 →
    chunksOfAux 9 f1 l = chunksOfAux 9 f2 l := by
  intro f1
  induction f1 with
  | zero =>
    intro f2 l h1 _
    have : l = [] := List.eq_nil_of_length_eq_zero (Nat.le_zero.mp h1)
    subst this
    rw [chunksOfAux_nil, chunksOfAux_nil]
  | succ f1 ih =>
    intro f2 l h1 h2
    cases l with
    | nil => rw [chunksOfAux_nil, chunksOfAux_nil]
    | cons c rest =>
      cases f2 with
      | zero => simp at h2
      | succ f2 =>
        rw [chunksOfAux_succ, chunksOfAux_succ]
        congr 1
        have hd : ((c :: rest).drop 9).length = (c :: rest).length - 9 :=
          List.length_drop 9 (c :: rest)
        apply ih
        · rw [hd]
          have := List.length_cons c rest
          omega
        · rw [hd]
          have := List.length_cons c rest
          omega

theorem chunks9_append (a b : List Char) (ha : a.length = 9) :
    chunksOf 9 (a ++ b) = a :: chunksOf 9 b := by
  cases a with
  | nil => simp at ha
  | cons c a' =>
    have ha' : a'.length = 8 := by simpa using ha
    rw [List.cons_append]
    unfold chunksOf
    rw [List.length_cons, chunksOfAux_succ]
    congr 1
    · rw [← List.cons_append, List.take_left' ha]
    · rw [← List.cons_append, List.drop_left' ha]
      apply chunks9Aux_irrel
      · simp
      · exact le_refl _

theorem chunks9_nine (a : List Char) (ha : a.length = 9) : chunksOf 9 a = [a] := by
  have h := chunks9_append a [] ha
  rw [List.append_nil] at h
  rw [h]
  rfl

theorem chunks9_binFix63 (u : Nat) :
    chunksOf 9 (binFix 63 u) = [binFix 9 (u / 2 ^ 54), binFix 9 (u / 2 ^ 45),
      binFix 9 (u / 2 ^ 36), binFix 9 (u / 2 ^ 27), binFix 9 (u / 2 ^ 18),
      binFix 9 (u / 2 ^ 9), binFix 9 u] := by
  have h63 : binFix 63 u = binFix 9 (u / 2 ^ 54) ++ binFix 54 u := binFix_add 9 54 u
  have h54 : binFix 54 u = binFix 9 (u / 2 ^ 45) ++ binFix 45 u := binFix_add 9 45 u
  have h45 : binFix 45 u = binFix 9 (u / 2 ^ 36) ++ binFix 36 u := binFix_add 9 36 u
  have h36 : binFix 36 u = binFix 9 (u / 2 ^ 27) ++ binFix 27 u := binFix_add 9 27 u
  have h27 : binFix 27 u = binFix 9 (u / 2 ^ 18) ++ binFix 18 u := binFix_add 9 18 u
  have h18 : binFix 18 u = binFix 9 (u / 2 ^ 9) ++ binFix 9 u := binFix_add 9 9 u
  rw [h63, chunks9_append _ _ (binFix_length 9 _), h54,
    chunks9_append _ _ (binFix_length 9 _), h45, chunks9_append _ _ (binFix_length 9 _),
    h36, chunks9_append _ _ (binFix_length 9 _), h27,
    chunks9_append _ _ (binFix_length 9 _), h18, chunks9_append _ _ (binFix_length 9 _),
    chunks9_nine _ (binFix_length 9 _)]

theorem heights_bridge : ∀ vs : List Nat,
    ((vs.map (fun v => binFix 9 v)).filter (fun t => t ≠ List.replicate 9 '0')).map
        (fun num => i32cast (parseBin num) - 64 - 1)
      = ((vs.map (fun v => (v % 512 : Nat))).filter (fun v => v ≠ 0)).map
          (fun v : Nat => (v : Int) - 64 - 1) := by
  intro vs
  induction vs with
  | nil => rfl
  | cons v vs ih =>
    have h512 : (2 : Nat) ^ 9 = 512 := by norm_num
    by_cases h : v % 512 = 0
    · have hb : binFix 9 v = List.replicate 9 '0' :=
        (binFix_eq_replicate 9 v).mpr (by rw [h512]; exact h)
      simp only [List.map_cons, List.filter_cons]
      rw [if_neg (by simp only [decide_eq_true_eq, ne_eq, not_not]; exact hb),
        if_neg (by simp only [decide_eq_true_eq, ne_eq, not_not]; exact h)]
      exact ih
    · have hb : binFix 9 v ≠ List.replicate 9 '0' := by
        intro hc
        exact h (by rw [← h512]; exact (binFix_eq_replicate 9 v).mp hc)
      simp only [List.map_cons, List.filter_cons]
      rw [if_pos (by simp only [decide_eq_true_eq, ne_eq]; exact hb),
        if_pos (by simp only [decide_eq_true_eq, ne_eq]; exact h)]
      rw [List.map_cons, List.map_cons, ih]
      have hlt : v % 512 < 2 ^ 31 := by
        have h1 : v % 512 < 512 := Nat.mod_lt v (by norm_num)
        have h2 : (512 : Nat) < 2 ^ 31 := by norm_num
        omega
      have hhead : i32cast (parseBin (binFix 9 v)) - 64 - 1 = ((v % 512 : Nat) : Int) - 64 - 1 := by
        rw [parseBin_binFix, h512, i32cast_of_lt (v % 512) hlt]
      rw [hhead]

theorem padBinary_ok : ∀ words : List Int, (∀ w ∈ words, 0 ≤ w ∧ w < 2 ^ 63) →
    padBinary words = .ok (words.map (fun w => binFix 63 (u64cast w))) := by
  intro words
  induction words with
  | nil => intro _; rfl
  | cons w ws ih =>
    intro h
    obtain ⟨hw0, hw63⟩ := h w (by simp)
    have hI : ((2 : Int) ^ 63) < 2 ^ 64 := by norm_num
    have hu : u64cast w = w.toNat := u64cast_of_nonneg w hw0 (lt_trans hw63 hI)
    have hN63 : ((2 : Nat) ^ 63 : Int) = 2 ^ 63 := by norm_cast
    have hu63 : w.toNat < 2 ^ 63 := by
      have : w < ((2 : Nat) ^ 63 : Int) := by rw [hN63]; exact hw63
      omega
    have hu64 : w.toNat < 2 ^ 64 := by
      have : (2 : Nat) ^ 63 < 2 ^ 64 := by norm_num
      omega
    have hlen : (binFormat (u64cast w)).length ≤ 63 := by
      rw [hu]
      by_cases h0 : w.toNat = 0
      · simp [binFormat, h0]
      · simp only [binFormat, if_neg h0]
        rw [bdigits_len w.toNat (Nat.pos_of_ne_zero h0) hu64]
        have : Nat.log2 w.toNat < 63 := (Nat.log2_lt h0).mpr hu63
        omega
    show padBinary (w :: ws) = _
    unfold padBinary
    rw [if_neg (by omega)]
    rw [ih (fun x hx => h x (by simp [hx]))]
    show RResult.ok _ = _
    rw [List.map_cons]
    have hpad : List.replicate (63 - (binFormat (u64cast w)).length) '0' ++ binFormat (u64cast w)
        = binFix 63 (u64cast w) := by
      apply binFormat_pad 63 (u64cast w) (by norm_num)
      · rw [hu]; exact hu63
      · rw [hu]; exact hu64
    rw [hpad]

theorem perword_eq (w : Int) :
    ((chunksOf 9 (binFix 63 (u64cast w))).reverse.filter
        (fun t => t ≠ List.replicate 9 '0')).map (fun num => i32cast (parseBin num) - 64 - 1)
      = ((spec_word_fields w).filter (fun v => v ≠ 0)).map (fun v : Nat => (v : Int) - 64 - 1) := by
  rw [chunks9_binFix63 (u64cast w)]
  have hrev : ([binFix 9 (u64cast w / 2 ^ 54), binFix 9 (u64cast w / 2 ^ 45),
      binFix 9 (u64cast w / 2 ^ 36), binFix 9 (u64cast w / 2 ^ 27),
      binFix 9 (u64cast w / 2 ^ 18), binFix 9 (u64cast w / 2 ^ 9),
      binFix 9 (u64cast w)] : List (List Char)).reverse
      = ([u64cast w, u64cast w / 2 ^ 9, u64cast w / 2 ^ 18, u64cast w / 2 ^ 27,
          u64cast w / 2 ^ 36, u64cast w / 2 ^ 45, u64cast w / 2 ^ 54].map
            (fun v => binFix 9 v)) := by
    simp
  rw [hrev, heights_bridge]
  have hspec : spec_word_fields w
      = [u64cast w, u64cast w / 2 ^ 9, u64cast w / 2 ^ 18, u64cast w / 2 ^ 27,
          u64cast w / 2 ^ 36, u64cast w / 2 ^ 45, u64cast w / 2 ^ 54].map
            (fun v => (v % 512 : Nat)) := by
    unfold spec_word_fields
    have hr : List.range 7 = [0, 1, 2, 3, 4, 5, 6] := rfl
    rw [hr]
    simp only [List.map_cons, List.map_nil]
    norm_num
  rw [hspec]

theorem heightmapAll_spec : ∀ words : List Int,
    (heightmapAll (words.map (fun w => binFix 63 (u64cast w)))).map
        (fun num => i32cast (parseBin num) - 64 - 1)
      = spec_heights words := by
  intro words
  induction words with
  | nil => rfl
  | cons w ws ih =>
    rw [List.map_cons]
    have hstep : heightmapAll (binFix 63 (u64cast w) :: ws.map (fun w => binFix 63 (u64cast w)))
        = ((chunksOf 9 (binFix 63 (u64cast w))).reverse.filter
            (fun t => t ≠ List.replicate 9 '0'))
          ++ heightmapAll (ws.map (fun w => binFix 63 (u64cast w))) := rfl
    rw [hstep, List.map_append, ih, perword_eq]
    have hsa : spec_all_fields (w :: ws)
        = (spec_word_fields w).filter (fun v => v ≠ 0) ++ spec_all_fields ws := rfl
    have hsh : spec_heights (w :: ws)
        = ((spec_word_fields w).filter (fun v => v ≠ 0)).map (fun v : Nat => (v : Int) - 64 - 1)
          ++ spec_heights ws := by
      unfold spec_heights
      rw [hsa, List.map_append]
    rw [hsh]

/-- C2: for every block-state palette length `n ≥ 1` (a `usize`, hence below
`2^64`), the bit width the block-state decoder uses equals
`max(bit_length(n-1), 4)` with the spec's `bit_length` (`0` at `0`,
`floor(log2 n) + 1` otherwise); in particular 4 at `n = 1` and 5 at
`n = 17`. -/
theorem claim_C2 :
    (∀ n : Nat, 1 ≤ n → n < 2 ^ 64 → block_state_bits n = max (spec_bit_length (n - 1)) 4)
      ∧ block_state_bits 1 = 4 ∧ block_state_bits 17 = 5 := by
  refine ⟨fun n _ h64 => ?_, by decide, by decide⟩
  unfold block_state_bits
  rw [bit_length_eq_spec (n - 1) (by omega)]

theorem claim_C2_witness :
    (1 ≤ 17 ∧ 17 < 2 ^ 64) ∧ block_state_bits 17 = max (spec_bit_length (17 - 1)) 4 :=
  ⟨⟨by decide, by decide⟩, claim_C2.1 17 (by decide) (by decide)⟩

/-- C3: the claim says the biome decode handles a word-spanning field by
combining the two partial reads; on the biome data `[-2^63, 0]` with palette
length 5 (width 3) at cell `(4,4,4)` (sub-index 21, bit position 63) the
code instead hits the `todo!()` panic, while the decode the claim and spec
prescribe yields the in-range index 1. -/
theorem claim_C3 :
    biome_pal_id 5 [-(2 ^ 63), 0] 4 4 4
      = .panicked "not yet implemented: I skipped this for now as it seemed a bit more tedious"
    ∧ spec_biome_decode 5 [-(2 ^ 63), 0] 21 = some 1 := by
  constructor
  · decide
  · have h : spec_bit_length 4 = 3 := by simp [spec_bit_length, Nat.log2]
    simp only [spec_biome_decode, show (5 : Nat) - 1 = 4 from rfl, h]
    decide

/-- C4 (amended): for a fully generated chunk, `get_heightmap` renders each
word as a 63-character zero-padded binary string, splits it into 7 groups of
9 bits consumed in reverse order, discards every all-zero 9-bit group
wherever it occurs (not only at the stream's tail), and maps each remaining
value `v` to `v - 64 - 1`; when the status is not `"full"` it returns
`None`. -/
theorem claim_C4 :
    (∀ words : List Int, (∀ w ∈ words, 0 ≤ w ∧ w < 2 ^ 63) →
      get_heightmap [("Status", Value.string "full"),
          ("Heightmaps", Value.compound [("WORLD_SURFACE", Value.longArray words)])] false
        = .ok (some (spec_heights words)))
    ∧ (∀ (st : String) (rest : List (String × Value)) (iw : Bool), st ≠ "full" →
      get_heightmap (("Status", Value.string st) :: rest) iw = .ok none) := by
  constructor
  · intro words h
    have hstep : get_heightmap [("Status", Value.string "full"),
        ("Heightmaps", Value.compound [("WORLD_SURFACE", Value.longArray words)])] false
        = RResult.bind (padBinary words) (fun surface_binary =>
            .ok (some ((heightmapAll surface_binary).map
              (fun num => i32cast (parseBin num) - 64 - 1)))) := rfl
    rw [hstep, padBinary_ok words h]
    show RResult.ok _ = _
    rw [heightmapAll_spec words]
  · intro st rest iw h
    have h1 : get_status (("Status", Value.string st) :: rest) = .ok st := rfl
    unfold get_heightmap
    rw [h1]
    show (if st = "full" then _ else RResult.ok none) = RResult.ok none
    rw [if_neg h]

/-- C4 as stated fails: on the single word `524289` (fields `1, 0, 2, 0, 0,
0, 0`) the code discards the interior all-zero group and returns heights
`[-64, -63]`, while discarding only tail padding would keep the interior
zero field and give `[-64, -65, -63]`. -/
theorem claim_C4_counterexample :
    get_heightmap [("Status", Value.string "full"),
        ("Heightmaps", Value.compound [("WORLD_SURFACE", Value.longArray [524289])])] false
      = .ok (some [-64, -63])
    ∧ spec_heights_tail [524289] = [-64, -65, -63]
    ∧ ([-64, -63] : List Int) ≠ [-64, -65, -63] :=
  ⟨by decide, by decide, by decide⟩

theorem claim_C4_witness :
    (∀ w ∈ ([524289] : List Int), 0 ≤ w ∧ w < 2 ^ 63)
    ∧ get_heightmap [("Status", Value.string "full"),
        ("Heightmaps", Value.compound [("WORLD_SURFACE", Value.longArray [524289])])] false
      = .ok (some (spec_heights [524289]))
    ∧ "empty" ≠ "full"
    ∧ get_heightmap [("Status", Value.string "empty")] true = .ok none :=
  ⟨by decide, claim_C4.1 [524289] (by decide), by decide, claim_C4.2 "empty" [] true (by decide)⟩

/-- C5: the claim says an out-of-range palette index surfaces as a decode
error and never as a panic; on a section with a one-entry block-state
palette and data word 5, the decoder computes palette index 5 ≥ 1 and
`get_block` PANICS with an index-out-of-bounds (the Rust `palette[palette_id]`
indexing), returning no error value. -/
theorem claim_C5 :
    block_state_pal_id 1 [5] 0 0 0 = .ok 5
    ∧ 1 ≤ 5
    ∧ get_block ⟨[("sections", Value.list [Value.compound
        [("Y", Value.byte 0),
         ("biomes", Value.compound [("palette", Value.list [Value.string "minecraft:plains"])]),
         ("block_states", Value.compound
           [("palette", Value.list [Value.compound [("Name", Value.string "minecraft:stone")]]),
            ("data", Value.longArray [5])])]])], 0, 0⟩ 0 0 0
      = .panicked "index out of bounds" :=
  ⟨by decide, by decide, by decide⟩

/-- C6: a sector-table entry that decodes to `(0, 0)` makes `chunk_data`
return `None` (absent chunk) — no error and no panic. -/
theorem claim_C6 (data : List Nat) (chunk_x chunk_z : Nat)
    (h0 : data.get? (header_offset chunk_x chunk_z) = some 0)
    (h1 : data.get? (header_offset chunk_x chunk_z + 1) = some 0)
    (h2 : data.get? (header_offset chunk_x chunk_z + 2) = some 0)
    (h3 : data.get? (header_offset chunk_x chunk_z + 3) = some 0) :
    chunk_data data chunk_x chunk_z = .ok none := by
  unfold chunk_data chunk_location
  dsimp only
  rw [h0, h1, h2, h3]
  show RResult.bind (.ok (from_be_3_bytes 0 0 0, 0)) _ = _
  have hz : from_be_3_bytes 0 0 0 = 0 := rfl
  rw [hz]
  rfl

theorem claim_C6_witness :
    (([0, 0, 0, 0] : List Nat).get? (header_offset 0 0) = some 0
      ∧ ([0, 0, 0, 0] : List Nat).get? (header_offset 0 0 + 1) = some 0
      ∧ ([0, 0, 0, 0] : List Nat).get? (header_offset 0 0 + 2) = some 0
      ∧ ([0, 0, 0, 0] : List Nat).get? (header_offset 0 0 + 3) = some 0)
    ∧ chunk_data [0, 0, 0, 0] 0 0 = .ok none :=
  ⟨⟨by decide, by decide, by decide, by decide⟩,
    claim_C6 [0, 0, 0, 0] 0 0 (by decide) (by decide) (by decide) (by decide)⟩

/-- C8: the claim says an altitude index outside `[-4, 19]` is rejected as a
recoverable error returned to the caller; the code PANICS
(`panic!("Y value out of range")`) instead, for every such index. -/
theorem claim_C8 (data : List (String × Value)) (y : Int) (h : y < -4 ∨ y > 19) :
    get_section data y = .panicked "Y value out of range" := by
  unfold get_section
  rw [if_pos h]

theorem claim_C8_witness :
    ((20 : Int) < -4 ∨ (20 : Int) > 19)
    ∧ get_section [] 20 = .panicked "Y value out of range" :=
  ⟨by decide, claim_C8 [] 20 (by decide)⟩

theorem splitChars_cons (sep c : Char) (rest : List Char) :
    splitChars sep (c :: rest) =
      if c = sep then [] :: splitChars sep rest
      else
        match splitChars sep rest with
        | [] => [[c]]
        | h :: t => (c :: h) :: t := rfl

theorem splitChars_no_sep (sep : Char) : ∀ l : List Char, sep ∉ l → splitChars sep l = [l] := by
  intro l
  induction l with
  | nil => intro _; rfl
  | cons c rest ih =>
    intro h
    have hc : ¬ c = sep := fun hc => h (hc ▸ List.mem_cons_self c rest)
    have hrest : sep ∉ rest := fun hr => h (List.mem_cons_of_mem c hr)
    rw [splitChars_cons, if_neg hc, ih hrest]

theorem splitChars_append (sep : Char) : ∀ (l r : List Char), sep ∉ l →
    splitChars sep (l ++ sep :: r) = l :: splitChars sep r := by
  intro l
  induction l with
  | nil =>
    intro r _
    show splitChars sep (sep :: r) = [] :: splitChars sep r
    rw [splitChars_cons, if_pos rfl]
  | cons c l' ih =>
    intro r h
    have hc : ¬ c = sep := fun hc => h (hc ▸ List.mem_cons_self c l')
    have hl : sep ∉ l' := fun hr => h (List.mem_cons_of_mem c hr)
    show splitChars sep (c :: (l' ++ sep :: r)) = (c :: l') :: splitChars sep r
    rw [splitChars_cons, if_neg hc, ih r hl]

/-- C9 fails as stated: for namespace `"a"` and id `"b:c"`, `name()` gives
`"a:b:c"`, but `from_name` splits at every colon and takes pieces 0 and 1,
reconstructing id `"b"`, not `"b:c"`. -/
theorem claim_C9_counterexample :
    Block.name ⟨"a", "b:c", none, none, ""⟩ = "a:b:c"
    ∧ Block.from_name "a:b:c" none none "" = .ok ⟨"a", "b", none, none, ""⟩
    ∧ (RResult.ok (⟨"a", "b", none, none, ""⟩ : Block)
        ≠ RResult.ok (⟨"a", "b:c", none, none, ""⟩ : Block)) :=
  ⟨by decide, by decide, by decide⟩

/-- C9 (amended): for every Block with non-empty namespace and id NEITHER OF
WHICH CONTAINS A COLON, `name()` returns `namespace ++ ":" ++ id` and
`from_name` on that name reproduces the original namespace and id; an id
containing a colon is truncated at its first colon instead
(`claim_C9_counterexample`). -/
theorem claim_C9 (ns idn : String) (coords : Option (Int × Int × Int))
    (props : Option (List (String × String))) (biome : String)
    (hns : ns ≠ "") (hid : idn ≠ "") (hnc : ':' ∉ ns.data) (hic : ':' ∉ idn.data) :
    Block.from_name (Block.name ⟨ns, idn, coords, props, biome⟩) coords props biome
      = .ok ⟨ns, idn, coords, props, biome⟩ := by
  have hdata : (Block.name ⟨ns, idn, coords, props, biome⟩).data = ns.data ++ ':' :: idn.data := by
    show (ns ++ ":" ++ idn).data = _
    rw [String.data_append, String.data_append, List.append_assoc]
    rfl
  unfold Block.from_name
  rw [hdata, splitChars_append ':' ns.data idn.data hnc, splitChars_no_sep ':' idn.data hic]
  show RResult.ok (Block.mk (String.mk ns.data) (String.mk idn.data) coords props biome)
    = RResult.ok (Block.mk ns idn coords props biome)
  have h1 : String.mk ns.data = ns := by cases ns; rfl
  have h2 : String.mk idn.data = idn := by cases idn; rfl
  rw [h1, h2]

theorem claim_C9_witness :
    ("minecraft" ≠ "" ∧ "stone" ≠ "" ∧ ':' ∉ "minecraft".data ∧ ':' ∉ "stone".data)
    ∧ Block.from_name (Block.name ⟨"minecraft", "stone", none, none, ""⟩) none none ""
      = .ok ⟨"minecraft", "stone", none, none, ""⟩ :=
  ⟨⟨by decide, by decide, by decide, by decide⟩,
    claim_C9 "minecraft" "stone" none none "" (by decide) (by decide) (by decide) (by decide)⟩

theorem biomeScan_append (t : Int) : ∀ (pre l : List Value),
    (∀ v ∈ pre, ∃ m yv, v = Value.compound m ∧ lookupKey m "Y" = some (Value.byte yv) ∧ yv ≠ t) →
    biomeScan t (pre ++ l) = biomeScan t l := by
  intro pre
  induction pre with
  | nil => intro l _; rfl
  | cons v pre' ih =>
    intro l h
    obtain ⟨m, yv, hv, hY, hne⟩ := h v (by simp)
    subst hv
    rw [List.cons_append]
    conv_lhs => unfold biomeScan
    simp only [hY]
    rw [if_neg hne]
    exact ih l (fun v hv => h v (List.mem_cons_of_mem _ hv))

/-- C10: whenever the computed altitude index matches an existing section,
`get_biome` returns entry 0 of that section's biome palette, whatever the
rest of the biomes group holds — in particular any per-cell `data` array in
`extra` is ignored. -/
theorem claim_C10 (pre post rest : List Value) (y : Int) (b : String)
    (extra secExtra : List (String × Value))
    (hpre : ∀ v ∈ pre, ∃ m yv, v = Value.compound m ∧ lookupKey m "Y" = some (Value.byte yv)
      ∧ yv ≠ i8cast (Int.tdiv (y + 64) 16 - 4)) :
    get_biome [("sections", Value.list (pre
        ++ Value.compound (("Y", Value.byte (i8cast (Int.tdiv (y + 64) 16 - 4)))
            :: ("biomes", Value.compound
                (("palette", Value.list (Value.string b :: rest)) :: extra))
            :: secExtra) :: post))] y
      = .ok b := by
  unfold get_biome
  show biomeScan (i8cast (Int.tdiv (y + 64) 16 - 4)) (pre ++ _ :: post) = _
  rw [biomeScan_append _ pre _ hpre]
  show (if i8cast (Int.tdiv (y + 64) 16 - 4) = i8cast (Int.tdiv (y + 64) 16 - 4)
      then RResult.ok b
      else biomeScan (i8cast (Int.tdiv (y + 64) 16 - 4)) post) = RResult.ok b
  rw [if_pos rfl]

theorem claim_C10_witness :
    (∀ v ∈ ([] : List Value), ∃ m yv, v = Value.compound m
        ∧ lookupKey m "Y" = some (Value.byte yv)
        ∧ yv ≠ i8cast (Int.tdiv ((0 : Int) + 64) 16 - 4))
    ∧ get_biome [("sections", Value.list (([] : List Value)
        ++ Value.compound (("Y", Value.byte (i8cast (Int.tdiv ((0 : Int) + 64) 16 - 4)))
            :: ("biomes", Value.compound
                (("palette", Value.list (Value.string "minecraft:plains" :: []))
                  :: [("data", Value.longArray [7])]))
            :: []) :: []))] 0
      = .ok "minecraft:plains" :=
  ⟨by simp, claim_C10 [] [] [] 0 "minecraft:plains" [("data", Value.longArray [7])] [] (by simp)⟩

/-- C7: when the computed altitude index matches no section, `get_block`
returns the `minecraft:air` identity with world coordinates set and no
properties. -/
theorem claim_C7 (c : Chunk) (x y z : Int)
    (h : get_section c.data (i8cast (Int.tdiv (y + 64) 16 - 4)) = .ok none) :
    get_block c x y z
      = .ok ⟨"minecraft", "air",
          some (u32toi32 c.x * 32 + x, y, u32toi32 c.z * 32 + z), none, ""⟩ := by
  unfold get_block
  rw [h]
  rfl

theorem claim_C7_witness :
    get_section (Chunk.mk [("sections", Value.list [])] 0 0).data
        (i8cast (Int.tdiv ((0 : Int) + 64) 16 - 4)) = .ok none
    ∧ get_block ⟨[("sections", Value.list [])], 0, 0⟩ 0 0 0
      = .ok ⟨"minecraft", "air",
          some (u32toi32 0 * 32 + 0, 0, u32toi32 0 * 32 + 0), none, ""⟩ :=
  ⟨by rfl, claim_C7 ⟨[("sections", Value.list [])], 0, 0⟩ 0 0 0 (by rfl)⟩

/-- C1: for in-range coordinates and a palette of length `n ≥ 1` (bounded by
`2^31` so the `u32` mask cannot overflow) whose packed array holds the
addressed word, the block-state decode computes exactly the claim's
formula: linear index `i = y*256 + z*16 + x`, word `i / (64/width)`, the
word reinterpreted as its unsigned 64-bit pattern before the logical right
shift by `(i mod (64/width)) * width`, and a mask of the low `width` bits;
`get_block` indexes the palette directly with this value. -/
theorem claim_C1 (palLen : Nat) (states : List Int) (x y z : Int)
    (hp1 : 1 ≤ palLen) (hp2 : palLen ≤ 2 ^ 31)
    (hx0 : 0 ≤ x) (hx1 : x ≤ 15) (hy0 : 0 ≤ y) (hy1 : y ≤ 15) (hz0 : 0 ≤ z) (hz1 : z ≤ 15)
    (hlen : (y * 256 + z * 16 + x).toNat / (64 / block_state_bits palLen) < states.length) :
    block_state_pal_id palLen states x y z = .ok (spec_block_state_entry palLen states x y z) := by
  have hbits_lt : block_state_bits palLen < 32 := by
    unfold block_state_bits
    have hb : bit_length (palLen - 1) < 32 := by
      unfold bit_length
      by_cases h0 : palLen - 1 = 0
      · rw [if_pos h0]; norm_num
      · rw [if_neg h0]
        have hp31 : palLen - 1 < 2 ^ 31 := by
          have h31 : (1 : Nat) ≤ 2 ^ 31 := by norm_num
          omega
        have h64 : palLen - 1 < 2 ^ 64 := by
          have : (2 : Nat) ^ 31 < 2 ^ 64 := by norm_num
          omega
        rw [bdigits_len (palLen - 1) (Nat.pos_of_ne_zero h0) h64]
        have : Nat.log2 (palLen - 1) < 31 := (Nat.log2_lt h0).mpr hp31
        omega
    exact max_lt hb (by norm_num)
  have hbits_pos : 0 < block_state_bits palLen :=
    lt_of_lt_of_le (by norm_num) (le_max_right (bit_length (palLen - 1)) 4)
  have hdiv_pos : 0 < 64 / block_state_bits palLen :=
    Nat.div_pos (by omega) hbits_pos
  have hidx_eq : y * 16 * 16 + z * 16 + x = y * 256 + z * 16 + x := by ring
  have hidx0 : 0 ≤ y * 256 + z * 16 + x := by omega
  have hidxlt : y * 256 + z * 16 + x < 2 ^ 64 := by
    calc y * 256 + z * 16 + x ≤ 4095 := by omega
    _ < 2 ^ 64 := by norm_num
  have hcast : usizeCast (y * 16 * 16 + z * 16 + x) = (y * 256 + z * 16 + x).toNat := by
    rw [hidx_eq]
    exact usizeCast_of_nonneg _ hidx0 hidxlt
  obtain ⟨data, hdata⟩ : ∃ data,
      states.get? ((y * 256 + z * 16 + x).toNat / (64 / block_state_bits palLen))
        = some data :=
    ⟨_, List.get?_eq_get hlen⟩
  have hbranch : (if data < 0 then u64cast data else usizeCast data) = u64cast data := by
    by_cases hd : data < 0
    · rw [if_pos hd]
    · rw [if_neg hd]; rfl
  have hspec : spec_block_state_entry palLen states x y z
      = u64cast data >>> ((y * 256 + z * 16 + x).toNat % (64 / block_state_bits palLen)
          * block_state_bits palLen) &&& (2 ^ block_state_bits palLen - 1) := by
    unfold spec_block_state_entry
    dsimp only
    rw [List.getD_eq_getElem?_getD]
    rw [List.get?_eq_getElem?] at hdata
    rw [hdata]
    rfl
  unfold block_state_pal_id
  rw [if_neg (show ¬ palLen = 0 by omega)]
  dsimp only
  rw [if_neg (show ¬ (64 / block_state_bits palLen = 0) by omega), hcast, hdata]
  show (if 32 ≤ block_state_bits palLen then _ else _) = _
  rw [if_neg (show ¬ (32 ≤ block_state_bits palLen) by omega), hspec, hbranch]

theorem claim_C1_witness :
    (1 ≤ 17 ∧ 17 ≤ 2 ^ 31
      ∧ (((0 : Int) * 256 + 0 * 16 + 0).toNat / (64 / block_state_bits 17)
          < ([-1] : List Int).length))
    ∧ block_state_pal_id 17 [-1] 0 0 0 = .ok (spec_block_state_entry 17 [-1] 0 0 0) :=
  ⟨⟨by decide, by decide, by decide⟩,
    claim_C1 17 [-1] 0 0 0 (by decide) (by decide) (by decide) (by decide) (by decide)
      (by decide) (by decide) (by decide) (by decide)⟩
